import Mathlib

/-
Shallow embedding of the Monaco Protocol client library (TypeScript) in Lean 4.

The library derives deterministic program addresses (PDAs), runs two-phase
account queries (scan for publicKeys, then batch-fetch bodies), aggregates
read views (market prices, market positions) and submits create/cancel
transactions, reporting through a uniform response envelope.

External effects (RPC scans, batch fetches, transaction submission, the
cryptographic address hash, the wall clock) are passed in as explicit
parameters or modelled by deterministic stand-ins; everything the library
itself computes is translated from the source files.
-/

/-- A string as the byte sequence Buffer.from produces for it (UTF-8; the
seeds used by this library are ASCII, where code points and bytes agree). -/
def strBytes (s : String) : List Nat := s.toList.map Char.toNat

/-- An on-chain address. PublicKey.findProgramAddress (solana web3.js,
external to this repository) is modelled from the spec as a deterministic,
collision-free function of the seed list and the program id: a derived
address is represented by the seed tuple itself, which is exactly the
determinism and injectivity the spec postulates absent hash collisions. -/
inductive PublicKey where
  | raw (bytes : List Nat)
  | pda (seeds : List (List Nat)) (programId : List Nat)
deriving DecidableEq, Repr

/-- Byte view of a key, as used when a key becomes a seed (pk.toBuffer).
For a derived key an arbitrary deterministic byte rendering is used; no
claim depends on its exact value. -/
def PublicKey.toBuffer : PublicKey → List Nat
  | .raw bytes => bytes
  | .pda seeds programId => programId ++ seeds.flatten

/-- PublicKey.findProgramAddress: deterministic derivation from seeds. -/
def findProgramAddress (seeds : List (List Nat)) (programId : List Nat) : PublicKey :=
  PublicKey.pda seeds programId

/-- Seed list of a derived address (empty for a raw key). -/
def PublicKey.seedsOf : PublicKey → List (List Nat)
  | .raw _ => []
  | .pda seeds _ => seeds

/-- ClientError from the types module: a fixed named error value. -/
structure ClientError where
  errorCode : String
  errorMessage : String
deriving DecidableEq, Repr

/-- The fixed error returned when a market has no cancellable bet orders. -/
def NoCancellableBetOrdersFound : ClientError :=
  { errorCode := "M001", errorMessage := "No cancellable bet orders found." }

/-- An entry of a response envelope error list: either a fixed client error
or an external failure (network, RPC, program rejection) captured verbatim. -/
inductive ErrItem where
  | client (e : ClientError)
  | ext (e : String)
deriving DecidableEq, Repr

/-- Response envelope. Modelled from the spec: the ClientResponse type of
types/client.ts is not under src; per the spec every public operation
returns a uniform envelope whose success flag is true iff the error list
is empty. -/
structure ClientResponse (α : Type) where
  success : Bool
  errors : List ErrItem
  data : α
deriving DecidableEq, Repr

/-- Modelled from the spec: the ResponseFactory of types/client.ts is not
under src; it accumulates errors and data and produces the envelope body
with success true iff no error was recorded. The data field starts from
the empty-object placeholder the source passes to the constructor, which
is modelled by Option-typed (or defaulted) data values at each call site. -/
structure ResponseFactory (α : Type) where
  data : α
  errors : List ErrItem
deriving DecidableEq, Repr

/-- ResponseFactory construction with the initial (empty object) data. -/
def ResponseFactory.init {α : Type} (d : α) : ResponseFactory α :=
  { data := d, errors := [] }

/-- response.addError(e): append one error. -/
def ResponseFactory.addError {α : Type} (r : ResponseFactory α) (e : ErrItem) : ResponseFactory α :=
  { r with errors := r.errors ++ [e] }

/-- response.addErrors(es): append a list of errors. -/
def ResponseFactory.addErrors {α : Type} (r : ResponseFactory α) (es : List ErrItem) : ResponseFactory α :=
  { r with errors := r.errors ++ es }

/-- response.addResponseData(d): set the data. -/
def ResponseFactory.addResponseData {α : Type} (r : ResponseFactory α) (d : α) : ResponseFactory α :=
  { r with data := d }

/-- response.body: the envelope, success iff the error list is empty. -/
def ResponseFactory.body {α : Type} (r : ResponseFactory α) : ClientResponse α :=
  { success := r.errors.isEmpty, errors := r.errors, data := r.data }

/-- A thrown JavaScript error escaping an operation (not an envelope). -/
inductive JsError where
  | typeError (msg : String)
deriving DecidableEq, Repr

/-- Left-pad a fraction part to three digits, as toFixed(3) renders it. -/
def pad3 (f : Nat) : String :=
  if f < 10 then "00" ++ toString f
  else if f < 100 then "0" ++ toString f
  else toString f

/-- Round a rational to the nearest thousandth, scaled by 1000: the floor
of q * 1000 + 1/2 computed on numerator and denominator. Models the
rounding of Number.prototype.toFixed(3); exact on the odds domain, where
q * 1000 is an integer. -/
def jsRound3 (q : ℚ) : Int :=
  Int.fdiv (2 * (q * 1000).num + ((q * 1000).den : Int)) (2 * ((q * 1000).den : Int))

/-- odds.toFixed(3).toString(): fixed three-decimal-place text. -/
def toFixed3 (q : ℚ) : String :=
  let n := jsRound3 q
  let sign := if n < 0 then "-" else ""
  let m := n.natAbs
  sign ++ toString (m / 1000) ++ "." ++ pad3 (m % 1000)

/-- backing.toString() for the matching pool seed. -/
def boolToString (b : Bool) : String := if b then "true" else "false"

/-- findBetOrderPda (bet_order.ts): seeds are market bytes, purchaser
bytes, then the date-based distinct seed. The distinct seed comes from the
wall clock (Date.now().toString()) and is passed in as a parameter. -/
def findBetOrderPda (programId : List Nat) (marketPk purchaserPk : PublicKey)
    (distinctSeed : String) : PublicKey :=
  findProgramAddress [marketPk.toBuffer, purchaserPk.toBuffer, strBytes distinctSeed] programId

/-- findMarketOutcomePda (market_outcome.ts): market bytes then the
outcome title bytes. -/
def findMarketOutcomePda (programId : List Nat) (marketPk : PublicKey)
    (marketOutcome : String) : PublicKey :=
  findProgramAddress [marketPk.toBuffer, strBytes marketOutcome] programId

/-- findMarketPositionPda (market_position.ts): purchaser bytes then
market bytes. -/
def findMarketPositionPda (programId : List Nat) (marketPk purchaserPk : PublicKey) : PublicKey :=
  findProgramAddress [purchaserPk.toBuffer, marketPk.toBuffer] programId

/-- findMarketMatchingPoolPda (market_matching_pools.ts): market bytes,
outcome title bytes, odds rendered by toFixed(3), then backing.toString(). -/
def findMarketMatchingPoolPda (programId : List Nat) (marketPk : PublicKey)
    (marketOutcome : String) (odds : ℚ) (backing : Bool) : PublicKey :=
  findProgramAddress
    [marketPk.toBuffer, strBytes marketOutcome, strBytes (toFixed3 odds),
     strBytes (boolToString backing)]
    programId

/-- C7: as stated the claim fails on the code: for concrete distinct keys,
the seed list findMarketPositionPda hashes is the purchaser bytes followed
by the market bytes, not market bytes first. -/
theorem findMarketPositionPda_seed_order_counterexample :
    ¬ (findMarketPositionPda [9] (.raw [1]) (.raw [2])).seedsOf =
      [(PublicKey.raw [1]).toBuffer, (PublicKey.raw [2]).toBuffer] := by
  decide

/-- C7 (amended): findBetOrderPda hashes market bytes, purchaser bytes,
then the timestamp text, and findMarketOutcomePda hashes market bytes then
the outcome title; but findMarketPositionPda hashes purchaser bytes first
and market bytes second, not the market-first ordering. -/
theorem pda_seed_order_amended (programId : List Nat) (marketPk purchaserPk : PublicKey)
    (distinctSeed marketOutcome : String) :
    (findBetOrderPda programId marketPk purchaserPk distinctSeed).seedsOf =
      [marketPk.toBuffer, purchaserPk.toBuffer, strBytes distinctSeed] ∧
    (findMarketOutcomePda programId marketPk marketOutcome).seedsOf =
      [marketPk.toBuffer, strBytes marketOutcome] ∧
    (findMarketPositionPda programId marketPk purchaserPk).seedsOf =
      [purchaserPk.toBuffer, marketPk.toBuffer] :=
  ⟨rfl, rfl, rfl⟩

/-- C8: findMarketMatchingPoolPda is deterministic in (programId, market,
outcome, odds, backing): equal inputs give the same address; its seed list
is market bytes, outcome bytes, the odds as fixed 3-decimal text, then the
backing text; and odds 3/2 is serialized as the text 1.500. -/
theorem findMarketMatchingPoolPda_deterministic
    (programId programId2 : List Nat) (marketPk marketPk2 : PublicKey)
    (marketOutcome marketOutcome2 : String) (odds odds2 : ℚ) (backing backing2 : Bool)
    (hp : programId = programId2) (hm : marketPk = marketPk2)
    (ho : marketOutcome = marketOutcome2) (hd : odds = odds2) (hb : backing = backing2) :
    findMarketMatchingPoolPda programId marketPk marketOutcome odds backing =
      findMarketMatchingPoolPda programId2 marketPk2 marketOutcome2 odds2 backing2 ∧
    (findMarketMatchingPoolPda programId marketPk marketOutcome odds backing).seedsOf =
      [marketPk.toBuffer, strBytes marketOutcome, strBytes (toFixed3 odds),
       strBytes (boolToString backing)] ∧
    toFixed3 (3 / 2) = "1.500" := by
  subst hp hm ho hd hb
  refine ⟨rfl, rfl, ?_⟩
  simp only [toFixed3, jsRound3, show ((3 : ℚ) / 2 * 1000) = 1500 from by norm_num]
  decide

/-- C8 witness: the determinism theorem applied at concrete inputs. -/
theorem findMarketMatchingPoolPda_deterministic_witness :
    findMarketMatchingPoolPda [7] (.raw [1]) "Monaco" 2 true =
      findMarketMatchingPoolPda [7] (.raw [1]) "Monaco" 2 true ∧
    (findMarketMatchingPoolPda [7] (.raw [1]) "Monaco" 2 true).seedsOf =
      [(PublicKey.raw [1]).toBuffer, strBytes "Monaco", strBytes (toFixed3 2),
       strBytes (boolToString true)] ∧
    toFixed3 (3 / 2) = "1.500" :=
  findMarketMatchingPoolPda_deterministic [7] [7] (.raw [1]) (.raw [1]) "Monaco" "Monaco"
    2 2 true true rfl rfl rfl rfl rfl

/-- BetOrderStatus enum (types/bet_order.ts). -/
inductive BetOrderStatus where
  | Open
  | Matched
  | SettledWin
  | SettledLose
  | Cancelled
deriving DecidableEq, Repr

/-- One fill of a bet order: matched odds and matched stake. -/
structure MatchRec where
  odds : ℚ
  stake : Int
deriving DecidableEq, Repr

/-- BetOrder account (types/bet_order.ts); BN values as integers, odds as
exact rationals standing for the JavaScript numbers. -/
structure BetOrder where
  purchaser : PublicKey
  market : PublicKey
  marketOutcomeIndex : Nat
  backing : Bool
  betOrderStatus : BetOrderStatus
  stake : Int
  voidedStake : Int
  expectedOdds : ℚ
  creationTimestamp : Int
  stakeUnmatched : Int
  payout : Int
  «matches» : List MatchRec
deriving DecidableEq, Repr

/-- MarketStatus enum (types/market.ts). -/
inductive MarketStatus where
  | Open
  | Locked
  | ReadyForSettlement
  | Settled
  | Complete
deriving DecidableEq, Repr

/-- Market account (types/market.ts). -/
structure MarketAccount where
  authority : Int
  decimalLimit : Nat
  escrowAccountBump : Nat
  eventAccount : PublicKey
  marketLockTimestamp : Int
  marketOutcomes : List String
  marketStatus : MarketStatus
  marketType : String
  marketWinningOutcomeIndex : Option Nat
  mintAccount : PublicKey
  published : Bool
  suspended : Bool
  title : String
deriving DecidableEq, Repr

/-- MarketOutcome account (types/market.ts). The index field is read by
market_outcome_query.ts as each outcome's own position; it is modelled
from the spec, which reassembles titles by each outcome's index field (the
TypeScript declaration omits it while the code reads it). -/
structure MarketOutcomeAccount where
  index : Nat
  title : String
  market : PublicKey
  latestMatchedOdds : ℚ
  matchedTotal : Int
  oddsLadder : List ℚ
deriving DecidableEq, Repr

/-- The bounded ring of pending bet-order references of a matching pool. -/
structure Cirque where
  front : Nat
  len : Nat
  items : List PublicKey
deriving DecidableEq, Repr

/-- MarketMatchingPool account (types/market.ts). -/
structure MarketMatchingPoolAccount where
  betOrders : Cirque
  liquidityAmount : Int
  matchedAmount : Int
  purchaser : PublicKey
deriving DecidableEq, Repr

/-- An account body paired with the address it was fetched from. -/
structure GetAccount (α : Type) where
  publicKey : PublicKey
  account : α
deriving DecidableEq, Repr

/-- Phase-two assembly shared by the filtering fetches: pair each scanned
address with the body fetchMultiple returned at the same position and drop
every pair whose body is empty (the account vanished between phases). The
source maps over the address list and filters on o.account; pairing by zip
is exact for every pair of lengths, since a position past the fetched list
reads undefined and is dropped by the same filter. -/
def assembleFiltered {α : Type} (publicKeys : List PublicKey)
    (accountsWithData : List (Option α)) : List (GetAccount α) :=
  (publicKeys.zip accountsWithData).filterMap fun pa =>
    pa.2.map fun a => { publicKey := pa.1, account := a }

/-- BetOrders.fetch (bet_order_query.ts): phase one result (publicKeys
envelope) and the fetchMultiple outcome are inputs; a failed scan forwards
its errors, a fetchMultiple throw is captured, and otherwise the filtered
assembly is returned. -/
def BetOrders.fetch (accountPublicKeys : ClientResponse (Option (List PublicKey)))
    (fetchMultipleRes : Except String (List (Option BetOrder))) :
    ClientResponse (Option (List (GetAccount BetOrder))) :=
  let response := ResponseFactory.init (none : Option (List (GetAccount BetOrder)))
  if !accountPublicKeys.success then (response.addErrors accountPublicKeys.errors).body
  else
    match accountPublicKeys.data, fetchMultipleRes with
    | _, .error e => (response.addError (.ext e)).body
    | none, .ok _ => (response.addError (.ext "TypeError: fetchMultiple of undefined")).body
    | some publicKeys, .ok accountsWithData =>
      (response.addResponseData (some (assembleFiltered publicKeys accountsWithData))).body

/-- MarketOutcomes.fetch (market_outcome_query.ts): same two-phase shape
as BetOrders.fetch, for market outcome accounts. -/
def MarketOutcomes.fetch (accountPublicKeys : ClientResponse (Option (List PublicKey)))
    (fetchMultipleRes : Except String (List (Option MarketOutcomeAccount))) :
    ClientResponse (Option (List (GetAccount MarketOutcomeAccount))) :=
  let response := ResponseFactory.init (none : Option (List (GetAccount MarketOutcomeAccount)))
  if !accountPublicKeys.success then (response.addErrors accountPublicKeys.errors).body
  else
    match accountPublicKeys.data, fetchMultipleRes with
    | _, .error e => (response.addError (.ext e)).body
    | none, .ok _ => (response.addError (.ext "TypeError: fetchMultiple of undefined")).body
    | some publicKeys, .ok accountsWithData =>
      (response.addResponseData (some (assembleFiltered publicKeys accountsWithData))).body

/-- getMarketMatchingPoolAccounts (market_matching_pools.ts): batch-fetch
matching pools for given PDAs, pair by position and drop empty bodies. -/
def getMarketMatchingPoolAccounts (marketMatchingPoolPDAs : List PublicKey)
    (fetchMultipleRes : Except String (List (Option MarketMatchingPoolAccount))) :
    ClientResponse (Option (List (GetAccount MarketMatchingPoolAccount))) :=
  let response := ResponseFactory.init (none : Option (List (GetAccount MarketMatchingPoolAccount)))
  match fetchMultipleRes with
  | .error e => (response.addErrors [.ext e]).body
  | .ok matchingPools =>
    (response.addResponseData (some (assembleFiltered marketMatchingPoolPDAs matchingPools))).body

/-- getMarketOutcomeAccounts (market_outcome.ts): derives outcome PDAs,
then stores the raw fetchMultiple result as the response data without any
filtering of empty bodies. -/
def getMarketOutcomeAccounts (marketOutcomePDAs : ClientResponse (Option (List PublicKey)))
    (fetchMultipleRes : Except String (List (Option MarketOutcomeAccount))) :
    ClientResponse (Option (List (Option MarketOutcomeAccount))) :=
  let response := ResponseFactory.init (none : Option (List (Option MarketOutcomeAccount)))
  if marketOutcomePDAs.success then
    match fetchMultipleRes with
    | .ok marketOutcomeAccounts => (response.addResponseData (some marketOutcomeAccounts)).body
    | .error e => (response.addError (.ext e)).body
  else (response.addErrors marketOutcomePDAs.errors).body

/-- A pair drawn from a zip comes from a common position of both lists. -/
theorem mem_zip_getElem? {α β : Type} : ∀ {l : List α} {r : List β} {p : α × β},
    p ∈ l.zip r → ∃ i : Nat, l[i]? = some p.1 ∧ r[i]? = some p.2 := by
  intro l
  induction l with
  | nil => intro r p h; simp [List.zip] at h
  | cons a l2 ih =>
    intro r p h
    cases r with
    | nil => simp [List.zip] at h
    | cons b r2 =>
      rcases List.mem_cons.mp h with h1 | h1
      · exact ⟨0, by simp [h1]⟩
      · obtain ⟨i, hi1, hi2⟩ := ih h1
        exact ⟨i + 1, by simpa using ⟨hi1, hi2⟩⟩

/-- The filtered assembly never outgrows the scanned address list. -/
theorem assembleFiltered_length_le {α : Type} (publicKeys : List PublicKey)
    (accountsWithData : List (Option α)) :
    (assembleFiltered publicKeys accountsWithData).length ≤ publicKeys.length :=
  le_trans (List.length_filterMap_le _ _)
    (by rw [List.length_zip]; exact min_le_left _ _)

/-- Every surviving entry of the filtered assembly carries a body that was
actually fetched (some) at the same position as its address. -/
theorem mem_assembleFiltered {α : Type} {publicKeys : List PublicKey}
    {accountsWithData : List (Option α)} {ga : GetAccount α}
    (h : ga ∈ assembleFiltered publicKeys accountsWithData) :
    ∃ i : Nat, publicKeys[i]? = some ga.publicKey ∧
      accountsWithData[i]? = some (some ga.account) := by
  obtain ⟨pa, hpa, hmap⟩ := List.mem_filterMap.mp h
  cases h2 : pa.2 with
  | none => rw [h2] at hmap; simp at hmap
  | some a =>
    rw [h2] at hmap
    have hga : ({ publicKey := pa.1, account := a } : GetAccount α) = ga :=
      Option.some.inj hmap
    obtain ⟨i, hi1, hi2⟩ := mem_zip_getElem? hpa
    refine ⟨i, ?_, ?_⟩
    · rw [← hga]
      exact hi1
    · rw [← hga, h2] at *
      exact hi2

/-- Concrete address used by witnesses. -/
def pkA : PublicKey := .raw [1]

/-- Second concrete address used by witnesses. -/
def pkB : PublicKey := .raw [2]

/-- Concrete bet order used by witnesses. -/
def testBetOrder : BetOrder :=
  { purchaser := pkA, market := pkB, marketOutcomeIndex := 0, backing := true,
    betOrderStatus := .Open, stake := 10, voidedStake := 0, expectedOdds := 2,
    creationTimestamp := 0, stakeUnmatched := 10, payout := 0, «matches» := [] }

/-- Concrete market outcome account used by witnesses. -/
def testOutcome : MarketOutcomeAccount :=
  { index := 0, title := "A", market := pkB, latestMatchedOdds := 2,
    matchedTotal := 0, oddsLadder := [] }

/-- Concrete matching pool account used by witnesses. -/
def testPool : MarketMatchingPoolAccount :=
  { betOrders := { front := 0, len := 0, items := [] }, liquidityAmount := 0,
    matchedAmount := 0, purchaser := pkA }

/-- C1: as stated the claim fails on the code: getMarketOutcomeAccounts
surfaces the raw fetchMultiple output, so an address whose account body
came back empty contributes a null entry to the final result list instead
of being excluded. -/
theorem getMarketOutcomeAccounts_keeps_null_counterexample :
    (getMarketOutcomeAccounts ⟨true, [], some [pkA]⟩
      (.ok [(none : Option MarketOutcomeAccount)])).data = some [none] ∧
    none ∈ ((getMarketOutcomeAccounts ⟨true, [], some [pkA]⟩
      (.ok [(none : Option MarketOutcomeAccount)])).data.getD []) := by
  constructor
  · rfl
  · decide

/-- C1 (amended): BetOrders.fetch, MarketOutcomes.fetch and
getMarketMatchingPoolAccounts exclude every address whose fetched body is
empty and return at most one entry per scanned address; but
getMarketOutcomeAccounts returns the raw batch-fetch output unfiltered
(one entry per input address, null bodies retained). -/
theorem two_phase_fetch_null_filtering_amended
    (scanResp pdasResp : ClientResponse (Option (List PublicKey)))
    (pks : List PublicKey)
    (fb : List (Option BetOrder))
    (fo : List (Option MarketOutcomeAccount))
    (fp : List (Option MarketMatchingPoolAccount))
    (rawOutcomes : List (Option MarketOutcomeAccount))
    (hs : scanResp.success = true) (hd : scanResp.data = some pks)
    (hp : pdasResp.success = true) :
    (∃ l, (BetOrders.fetch scanResp (.ok fb)).data = some l ∧
      l.length ≤ pks.length ∧
      ∀ ga ∈ l, ∃ i : Nat, pks[i]? = some ga.publicKey ∧ fb[i]? = some (some ga.account)) ∧
    (∃ l, (MarketOutcomes.fetch scanResp (.ok fo)).data = some l ∧
      l.length ≤ pks.length ∧
      ∀ ga ∈ l, ∃ i : Nat, pks[i]? = some ga.publicKey ∧ fo[i]? = some (some ga.account)) ∧
    (∃ l, (getMarketMatchingPoolAccounts pks (.ok fp)).data = some l ∧
      l.length ≤ pks.length ∧
      ∀ ga ∈ l, ∃ i : Nat, pks[i]? = some ga.publicKey ∧ fp[i]? = some (some ga.account)) ∧
    (getMarketOutcomeAccounts pdasResp (.ok rawOutcomes)).data = some rawOutcomes := by
  refine ⟨⟨assembleFiltered pks fb, ?_, assembleFiltered_length_le pks fb,
      fun ga hga => mem_assembleFiltered hga⟩,
    ⟨assembleFiltered pks fo, ?_, assembleFiltered_length_le pks fo,
      fun ga hga => mem_assembleFiltered hga⟩,
    ⟨assembleFiltered pks fp, ?_, assembleFiltered_length_le pks fp,
      fun ga hga => mem_assembleFiltered hga⟩, ?_⟩
  · simp [BetOrders.fetch, hs, hd, ResponseFactory.init, ResponseFactory.addResponseData,
      ResponseFactory.body]
  · simp [MarketOutcomes.fetch, hs, hd, ResponseFactory.init, ResponseFactory.addResponseData,
      ResponseFactory.body]
  · simp [getMarketMatchingPoolAccounts, ResponseFactory.init, ResponseFactory.addResponseData,
      ResponseFactory.body]
  · simp [getMarketOutcomeAccounts, hp, ResponseFactory.init, ResponseFactory.addResponseData,
      ResponseFactory.body]

/-- C1 witness: the amended theorem applied to a concrete scan of two
addresses of which the second vanished before phase two. -/
theorem two_phase_fetch_null_filtering_amended_witness :
    (⟨true, [], some [pkA, pkB]⟩ : ClientResponse (Option (List PublicKey))).success = true ∧
    (⟨true, [], some [pkA, pkB]⟩ : ClientResponse (Option (List PublicKey))).data =
      some [pkA, pkB] ∧
    ((∃ l, (BetOrders.fetch ⟨true, [], some [pkA, pkB]⟩
        (.ok [some testBetOrder, none])).data = some l ∧
      l.length ≤ [pkA, pkB].length ∧
      ∀ ga ∈ l, ∃ i : Nat, [pkA, pkB][i]? = some ga.publicKey ∧
        [some testBetOrder, none][i]? = some (some ga.account)) ∧
    (∃ l, (MarketOutcomes.fetch ⟨true, [], some [pkA, pkB]⟩
        (.ok [some testOutcome, none])).data = some l ∧
      l.length ≤ [pkA, pkB].length ∧
      ∀ ga ∈ l, ∃ i : Nat, [pkA, pkB][i]? = some ga.publicKey ∧
        [some testOutcome, none][i]? = some (some ga.account)) ∧
    (∃ l, (getMarketMatchingPoolAccounts [pkA, pkB]
        (.ok [some testPool, none])).data = some l ∧
      l.length ≤ [pkA, pkB].length ∧
      ∀ ga ∈ l, ∃ i : Nat, [pkA, pkB][i]? = some ga.publicKey ∧
        [some testPool, none][i]? = some (some ga.account)) ∧
    (getMarketOutcomeAccounts ⟨true, [], some [pkA, pkB]⟩
      (.ok [some testOutcome, none])).data = some [some testOutcome, none]) :=
  ⟨rfl, rfl,
    two_phase_fetch_null_filtering_amended ⟨true, [], some [pkA, pkB]⟩
      ⟨true, [], some [pkA, pkB]⟩ [pkA, pkB] [some testBetOrder, none]
      [some testOutcome, none] [some testPool, none] [some testOutcome, none]
      rfl rfl rfl⟩

/-- JavaScript array element assignment result at index i: a shorter array
is extended with holes (undefined, modelled by none) up to index i, then
position i receives the value. -/
def setAt (l : List (Option String)) (i : Nat) (v : String) : List (Option String) :=
  (l ++ List.replicate (i + 1 - l.length) none).set i (some v)

/-- An assignment leaves its own position holding the assigned value. -/
theorem getElem?_setAt_self (l : List (Option String)) (i : Nat) (v : String) :
    (setAt l i v)[i]? = some (some v) := by
  have hlt : i < (l ++ List.replicate (i + 1 - l.length) none).length := by
    rw [List.length_append, List.length_replicate]
    omega
  exact List.getElem?_set_eq_of_lt (some v) hlt

/-- An assignment at a different index preserves an already present value. -/
theorem getElem?_setAt_ne (l : List (Option String)) {i j : Nat} (v : String)
    (x : Option String) (hne : j ≠ i) (hj : l[j]? = some x) :
    (setAt l i v)[j]? = some x := by
  have hjl : j < l.length := by
    by_contra hc
    rw [List.getElem?_eq_none (by omega)] at hj
    exact Option.noConfusion hj
  rw [setAt, List.getElem?_set_ne (Ne.symm hne), List.getElem?_append, if_pos hjl, hj]

/-- getMarketOutcomeTitlesByMarket (market_outcome_query.ts): runs the
market outcome query, then reads data.marketOutcomeAccounts without any
success check and writes each title at the position given by its own index
field; the return value is the bare title array, not an envelope. When the
underlying fetch failed, data carries no account list and the forEach call
on undefined throws a TypeError past the boundary. -/
def getMarketOutcomeTitlesByMarket
    (marketOutcomesResponse : ClientResponse (Option (List (GetAccount MarketOutcomeAccount)))) :
    Except JsError (List (Option String)) :=
  match marketOutcomesResponse.data with
  | none => .error (.typeError "cannot read forEach of undefined")
  | some marketOutcomeAccounts =>
    .ok (marketOutcomeAccounts.foldl
      (fun result ga => setAt result ga.account.index ga.account.title) [])

/-- A position already holding a value keeps it through the remaining
assignments, provided no remaining account targets that index. -/
theorem foldl_setAt_preserves (accts : List (GetAccount MarketOutcomeAccount)) :
    ∀ (r : List (Option String)) (j : Nat) (x : Option String),
      r[j]? = some x → (∀ ga ∈ accts, ga.account.index ≠ j) →
      (accts.foldl (fun result ga => setAt result ga.account.index ga.account.title) r)[j]? =
        some x := by
  induction accts with
  | nil => intro r j x hj _; exact hj
  | cons b rest ih =>
    intro r j x hj hni
    have hb : b.account.index ≠ j := hni b (List.mem_cons_self _ _)
    refine ih _ j x ?_ (fun ga hga => hni ga (List.mem_cons_of_mem _ hga))
    exact getElem?_setAt_ne r b.account.title x (fun h => hb h.symm) hj

/-- When the index fields are pairwise distinct, the reassembled array
holds, at each account's index, that account's title. -/
theorem foldl_setAt_lookup (accts : List (GetAccount MarketOutcomeAccount)) :
    ∀ (r : List (Option String)),
      (accts.map (fun ga => ga.account.index)).Nodup →
      ∀ ga ∈ accts,
        (accts.foldl (fun result ga => setAt result ga.account.index ga.account.title) r)[ga.account.index]? =
          some (some ga.account.title) := by
  induction accts with
  | nil => intro r _ ga hga; exact absurd hga (List.not_mem_nil ga)
  | cons b rest ih =>
    intro r hnd ga hga
    rw [List.map_cons, List.nodup_cons] at hnd
    rcases List.mem_cons.mp hga with h1 | h1
    · subst h1
      simp only [List.foldl_cons]
      refine foldl_setAt_preserves rest _ _ _ (getElem?_setAt_self r _ _) ?_
      intro ga2 hga2 heq
      exact hnd.1 (heq ▸ List.mem_map_of_mem (fun ga3 => ga3.account.index) hga2)
    · simp only [List.foldl_cons]
      exact ih _ hnd.2 ga h1

/-- C9: when every fetched outcome carries a distinct index field,
getMarketOutcomeTitlesByMarket returns an array whose position i holds the
title of the outcome account whose own index field equals i, for every
fetched outcome, whatever order the scan returned the accounts in. -/
theorem getMarketOutcomeTitles_index_addressed
    (marketOutcomesResponse : ClientResponse (Option (List (GetAccount MarketOutcomeAccount))))
    (accts : List (GetAccount MarketOutcomeAccount))
    (hd : marketOutcomesResponse.data = some accts)
    (hnd : (accts.map (fun ga => ga.account.index)).Nodup) :
    ∃ result, getMarketOutcomeTitlesByMarket marketOutcomesResponse = .ok result ∧
      ∀ ga ∈ accts, result[ga.account.index]? = some (some ga.account.title) := by
  refine ⟨accts.foldl (fun result ga => setAt result ga.account.index ga.account.title) [], ?_, ?_⟩
  · rw [getMarketOutcomeTitlesByMarket, hd]
  · exact foldl_setAt_lookup accts [] hnd

/-- Second concrete market outcome, at index 1, used by witnesses. -/
def testOutcomeB : MarketOutcomeAccount :=
  { index := 1, title := "B", market := pkB, latestMatchedOdds := 3,
    matchedTotal := 0, oddsLadder := [] }

/-- C9 witness: the theorem applied to a scan that returned the outcome
with index 1 before the outcome with index 0. -/
theorem getMarketOutcomeTitles_index_addressed_witness :
    (⟨true, [], some [⟨pkA, testOutcomeB⟩, ⟨pkB, testOutcome⟩]⟩ :
      ClientResponse (Option (List (GetAccount MarketOutcomeAccount)))).data =
      some [⟨pkA, testOutcomeB⟩, ⟨pkB, testOutcome⟩] ∧
    ([⟨pkA, testOutcomeB⟩, ⟨pkB, testOutcome⟩].map
      (fun ga : GetAccount MarketOutcomeAccount => ga.account.index)).Nodup ∧
    ∃ result,
      getMarketOutcomeTitlesByMarket
        ⟨true, [], some [⟨pkA, testOutcomeB⟩, ⟨pkB, testOutcome⟩]⟩ = .ok result ∧
      ∀ ga ∈ [(⟨pkA, testOutcomeB⟩ : GetAccount MarketOutcomeAccount), ⟨pkB, testOutcome⟩],
        result[ga.account.index]? = some (some ga.account.title) :=
  ⟨rfl, by decide,
    getMarketOutcomeTitles_index_addressed _ _ rfl (by decide)⟩

/-- CancelBetOrderResponse (types/bet_order.ts); fields are absent until
addResponseData runs, matching the empty-object factory seed. -/
structure CancelBetOrderResponse where
  betOrderPk : Option PublicKey
  tnxID : Option String
deriving DecidableEq, Repr

/-- CancelBetOrdersResponse (types/bet_order.ts). -/
structure CancelBetOrdersResponse where
  failedCancellationBetOrders : Option (List PublicKey)
  tnxIDs : Option (List String)
deriving DecidableEq, Repr

/-- Outcome of one cancelBet transaction submission, an external effect:
either the transaction id or the thrown error, per order. -/
inductive RpcOutcome where
  | ok (tnxID : String)
  | fail (e : String)
deriving DecidableEq, Repr

/-- Whether a submission outcome is a failure. -/
def RpcOutcome.isFail : RpcOutcome → Bool
  | .ok _ => false
  | .fail _ => true

/-- cancelBetOrder (cancel_bet_order.ts): reads the upstream getBetOrder
and getMarket envelopes without checking success, so a failed fetch leaves
data empty and the next property read throws a TypeError past the
boundary; likewise an out-of-range outcome index makes the matching-pool
derivation hash an undefined title, which throws. Only the submission
itself is guarded: its error is captured into the envelope and the body is
still returned with the target address. -/
def cancelBetOrder (betOrderPk : PublicKey)
    (betOrderResponse : ClientResponse (Option (GetAccount BetOrder)))
    (marketResponse : ClientResponse (Option (GetAccount MarketAccount)))
    (rpcResult : Except String String) :
    Except JsError (ClientResponse CancelBetOrderResponse) :=
  match betOrderResponse.data with
  | none => .error (.typeError "cannot read market of undefined")
  | some betOrderGA =>
    match marketResponse.data with
    | none => .error (.typeError "cannot read mintAccount of undefined")
    | some marketGA =>
      match marketGA.account.marketOutcomes[betOrderGA.account.marketOutcomeIndex]? with
      | none => .error (.typeError "Buffer.from of undefined outcome")
      | some _ =>
        let response := ResponseFactory.init (⟨none, none⟩ : CancelBetOrderResponse)
        match rpcResult with
        | .ok tnxID =>
          .ok ((response.addResponseData ⟨some betOrderPk, some tnxID⟩).body)
        | .error e =>
          .ok (((response.addError (.ext e)).addResponseData ⟨some betOrderPk, none⟩).body)

/-- cancelBetOrdersForMarket (cancel_bet_order.ts): reads the market and
the cancellable-order set from their envelopes without success checks
(throwing on missing data), short-circuits with the fixed error when the
set is empty, and otherwise attempts every cancellation, collecting a
transaction id per success and the order address per failure; a rejected
matching-pool derivation (out-of-range outcome index) rejects the joined
batch. Returns the envelope together with the list of orders whose
submission was attempted. -/
def cancelBetOrdersForMarket
    (marketResponse : ClientResponse (Option (GetAccount MarketAccount)))
    (betOrdersResponse : ClientResponse (Option (List (GetAccount BetOrder))))
    (rpc : GetAccount BetOrder → RpcOutcome) :
    Except JsError (ClientResponse CancelBetOrdersResponse × List PublicKey) :=
  match marketResponse.data with
  | none => .error (.typeError "cannot read mintAccount of undefined")
  | some marketGA =>
    match betOrdersResponse.data with
    | none => .error (.typeError "cannot read length of undefined")
    | some betOrders =>
      let response := ResponseFactory.init (⟨none, none⟩ : CancelBetOrdersResponse)
      if betOrders.length < 1 then
        .ok ((response.addError (.client NoCancellableBetOrdersFound)).body, [])
      else
        if betOrders.all
            (fun bet => bet.account.marketOutcomeIndex < marketGA.account.marketOutcomes.length)
        then
          let results : List (String ⊕ PublicKey) := betOrders.map fun bet =>
            match rpc bet with
            | .ok tnxID => .inl tnxID
            | .fail _ => .inr bet.publicKey
          let errs : List ErrItem := betOrders.filterMap fun bet =>
            match rpc bet with
            | .ok _ => none
            | .fail e => some (.ext e)
          let tnxIDs : List String := results.filterMap fun r =>
            match r with
            | .inl s => some s
            | .inr _ => none
          let failedCancellationBetOrders : List PublicKey := results.filterMap fun r =>
            match r with
            | .inl _ => none
            | .inr p => some p
          .ok (((response.addErrors errs).addResponseData
              ⟨some failedCancellationBetOrders, some tnxIDs⟩).body,
            betOrders.map fun bet => bet.publicKey)
        else .error (.typeError "Buffer.from of undefined outcome")

/-- Concrete market account used by witnesses. -/
def testMarket : MarketAccount :=
  { authority := 0, decimalLimit := 2, escrowAccountBump := 0, eventAccount := pkA,
    marketLockTimestamp := 0, marketOutcomes := ["A", "B"], marketStatus := .Open,
    marketType := "EventResultWinner", marketWinningOutcomeIndex := none,
    mintAccount := pkB, published := true, suspended := false, title := "Test market" }

/-- Concrete bet order whose outcome index lies outside the two-outcome
test market, used to exhibit the out-of-range throw. -/
def testOobOrder : BetOrder :=
  { testBetOrder with marketOutcomeIndex := 5 }

/-- C3: as stated the claim fails on the code, at three concrete inputs:
when the upstream getBetOrder fetch failed, when the upstream getMarket
fetch failed, and when the order's outcome index is out of the market's
outcome range, cancelBetOrder dereferences missing data and a TypeError
escapes its boundary instead of an envelope; and
getMarketOutcomeTitlesByMarket likewise throws when its query failed, and
never returns an envelope at all. -/
theorem cancelBetOrder_throws_counterexample :
    cancelBetOrder pkA ⟨false, [.ext "Account does not exist"], none⟩
      ⟨true, [], none⟩ (.ok "tnx") =
      .error (.typeError "cannot read market of undefined") ∧
    cancelBetOrder pkA ⟨true, [], some ⟨pkA, testBetOrder⟩⟩
      ⟨false, [.ext "Account does not exist"], none⟩ (.ok "tnx") =
      .error (.typeError "cannot read mintAccount of undefined") ∧
    cancelBetOrder pkA ⟨true, [], some ⟨pkA, testOobOrder⟩⟩
      ⟨true, [], some ⟨pkB, testMarket⟩⟩ (.ok "tnx") =
      .error (.typeError "Buffer.from of undefined outcome") ∧
    getMarketOutcomeTitlesByMarket ⟨false, [.ext "scan failed"], none⟩ =
      .error (.typeError "cannot read forEach of undefined") :=
  ⟨rfl, rfl, rfl, rfl⟩

/-- C3 (amended): errors are signaled through the envelope by the guarded
operations, with two boundary leaks: cancelBetOrder returns its envelope
(submission failure captured in the error list, the target address still
attached) only when both upstream fetches delivered data and the outcome
index is in range, and throws a TypeError past its boundary whenever the
upstream getBetOrder fetch failed, whenever the upstream getMarket fetch
failed, and whenever the outcome index is out of the market's outcome
range; getMarketOutcomeTitlesByMarket returns a bare title array instead
of an envelope when its query delivered data, and throws when it did not. -/
theorem envelope_boundary_amended
    (betOrderPk : PublicKey)
    (betOrderResponse : ClientResponse (Option (GetAccount BetOrder)))
    (marketResponse : ClientResponse (Option (GetAccount MarketAccount)))
    (rpcResult : Except String String)
    (titlesResponse : ClientResponse (Option (List (GetAccount MarketOutcomeAccount)))) :
    (betOrderResponse.data = none →
      cancelBetOrder betOrderPk betOrderResponse marketResponse rpcResult =
        .error (.typeError "cannot read market of undefined")) ∧
    (∀ betOrderGA, betOrderResponse.data = some betOrderGA →
      marketResponse.data = none →
      cancelBetOrder betOrderPk betOrderResponse marketResponse rpcResult =
        .error (.typeError "cannot read mintAccount of undefined")) ∧
    (∀ betOrderGA marketGA,
      betOrderResponse.data = some betOrderGA →
      marketResponse.data = some marketGA →
      marketGA.account.marketOutcomes[betOrderGA.account.marketOutcomeIndex]? = none →
      cancelBetOrder betOrderPk betOrderResponse marketResponse rpcResult =
        .error (.typeError "Buffer.from of undefined outcome")) ∧
    (∀ betOrderGA marketGA,
      betOrderResponse.data = some betOrderGA →
      marketResponse.data = some marketGA →
      betOrderGA.account.marketOutcomeIndex < marketGA.account.marketOutcomes.length →
      ∃ r, cancelBetOrder betOrderPk betOrderResponse marketResponse rpcResult = .ok r ∧
        r.data.betOrderPk = some betOrderPk ∧
        (∀ e, rpcResult = .error e →
          r.success = false ∧ r.errors = [.ext e] ∧ r.data.tnxID = none) ∧
        (∀ t, rpcResult = .ok t →
          r.success = true ∧ r.errors = [] ∧ r.data.tnxID = some t)) ∧
    (titlesResponse.data = none →
      getMarketOutcomeTitlesByMarket titlesResponse =
        .error (.typeError "cannot read forEach of undefined")) ∧
    (∀ accts, titlesResponse.data = some accts →
      ∃ l, getMarketOutcomeTitlesByMarket titlesResponse = .ok l) := by
  refine ⟨?_, ?_, ?_, ?_, ?_, ?_⟩
  · intro h
    rw [cancelBetOrder, h]
  · intro betOrderGA h1 h2
    simp only [cancelBetOrder, h1, h2]
  · intro betOrderGA marketGA h1 h2 h3
    simp only [cancelBetOrder, h1, h2, h3]
  · intro betOrderGA marketGA h1 h2 h3
    simp only [cancelBetOrder, h1, h2, List.getElem?_eq_getElem h3]
    cases rpcResult with
    | ok t =>
      refine ⟨_, rfl, rfl, ?_, ?_⟩
      · intro e he; exact absurd he (by simp)
      · intro t2 ht; cases ht; exact ⟨rfl, rfl, rfl⟩
    | error e =>
      refine ⟨_, rfl, rfl, ?_, ?_⟩
      · intro e2 he; cases he; exact ⟨rfl, rfl, rfl⟩
      · intro t ht; exact absurd ht (by simp)
  · intro h
    rw [getMarketOutcomeTitlesByMarket, h]
  · intro accts h
    rw [getMarketOutcomeTitlesByMarket, h]
    exact ⟨_, rfl⟩

/-- C3 witness: the amended theorem applied at concrete inputs: the three
leak branches (empty getBetOrder data, empty getMarket data, out-of-range
outcome index) and the envelope branch on delivered data with a rejected
submission. -/
theorem envelope_boundary_amended_witness :
    cancelBetOrder pkA ⟨false, [.ext "missing"], none⟩ ⟨true, [], none⟩ (.ok "t") =
      .error (.typeError "cannot read market of undefined") ∧
    cancelBetOrder pkA ⟨true, [], some ⟨pkA, testBetOrder⟩⟩
      ⟨false, [.ext "missing"], none⟩ (.ok "t") =
      .error (.typeError "cannot read mintAccount of undefined") ∧
    cancelBetOrder pkA ⟨true, [], some ⟨pkA, testOobOrder⟩⟩
      ⟨true, [], some ⟨pkB, testMarket⟩⟩ (.ok "t") =
      .error (.typeError "Buffer.from of undefined outcome") ∧
    (∃ r, cancelBetOrder pkA ⟨true, [], some ⟨pkA, testBetOrder⟩⟩
        ⟨true, [], some ⟨pkB, testMarket⟩⟩ (.error "rejected") = .ok r ∧
      r.data.betOrderPk = some pkA ∧ r.success = false ∧
      r.errors = [.ext "rejected"] ∧ r.data.tnxID = none) ∧
    (∃ l, getMarketOutcomeTitlesByMarket
      (⟨true, [], some [⟨pkB, testOutcome⟩]⟩ :
        ClientResponse (Option (List (GetAccount MarketOutcomeAccount)))) = .ok l) := by
  have h1 := (envelope_boundary_amended pkA ⟨false, [.ext "missing"], none⟩
    ⟨true, [], none⟩ (.ok "t") ⟨true, [], none⟩).1 rfl
  have h2 := (envelope_boundary_amended pkA ⟨true, [], some ⟨pkA, testBetOrder⟩⟩
    ⟨false, [.ext "missing"], none⟩ (.ok "t") ⟨true, [], none⟩).2.1
    ⟨pkA, testBetOrder⟩ rfl rfl
  have h3 := (envelope_boundary_amended pkA ⟨true, [], some ⟨pkA, testOobOrder⟩⟩
    ⟨true, [], some ⟨pkB, testMarket⟩⟩ (.ok "t") ⟨true, [], none⟩).2.2.1
    ⟨pkA, testOobOrder⟩ ⟨pkB, testMarket⟩ rfl rfl (by decide)
  have h4 := (envelope_boundary_amended pkA ⟨true, [], some ⟨pkA, testBetOrder⟩⟩
    ⟨true, [], some ⟨pkB, testMarket⟩⟩ (.error "rejected")
    ⟨true, [], some [⟨pkB, testOutcome⟩]⟩).2.2.2.1 ⟨pkA, testBetOrder⟩ ⟨pkB, testMarket⟩
    rfl rfl (by decide)
  have h5 := (envelope_boundary_amended pkA ⟨true, [], some ⟨pkA, testBetOrder⟩⟩
    ⟨true, [], some ⟨pkB, testMarket⟩⟩ (.error "rejected")
    ⟨true, [], some [⟨pkB, testOutcome⟩]⟩).2.2.2.2.2 [⟨pkB, testOutcome⟩] rfl
  obtain ⟨r, hr, hpk, hfail, _⟩ := h4
  obtain ⟨hsucc, herrs, htnx⟩ := hfail "rejected" rfl
  exact ⟨h1, h2, h3, ⟨r, hr, hpk, hsucc, herrs, htnx⟩, h5⟩

/-- C6: with a market and an empty cancellable-order set,
cancelBetOrdersForMarket returns the fixed no-cancellable-orders error
(code M001) in the envelope, attempts no transaction, and its data carries
neither transaction ids nor failed-order addresses. -/
theorem cancelBetOrdersForMarket_empty_shortcircuit
    (marketResponse : ClientResponse (Option (GetAccount MarketAccount)))
    (betOrdersResponse : ClientResponse (Option (List (GetAccount BetOrder))))
    (rpc : GetAccount BetOrder → RpcOutcome)
    (marketGA : GetAccount MarketAccount)
    (hm : marketResponse.data = some marketGA)
    (hb : betOrdersResponse.data = some []) :
    cancelBetOrdersForMarket marketResponse betOrdersResponse rpc =
      .ok (⟨false, [.client NoCancellableBetOrdersFound], ⟨none, none⟩⟩, []) ∧
    NoCancellableBetOrdersFound.errorCode = "M001" := by
  constructor
  · simp only [cancelBetOrdersForMarket, hm, hb]
    rfl
  · rfl

/-- C6 witness: the short-circuit theorem applied at concrete inputs. -/
theorem cancelBetOrdersForMarket_empty_shortcircuit_witness :
    (⟨true, [], some ⟨pkB, testMarket⟩⟩ :
      ClientResponse (Option (GetAccount MarketAccount))).data = some ⟨pkB, testMarket⟩ ∧
    (⟨true, [], some []⟩ :
      ClientResponse (Option (List (GetAccount BetOrder)))).data = some [] ∧
    (cancelBetOrdersForMarket ⟨true, [], some ⟨pkB, testMarket⟩⟩ ⟨true, [], some []⟩
        (fun _ => .ok "t") =
      .ok (⟨false, [.client NoCancellableBetOrdersFound], ⟨none, none⟩⟩, []) ∧
    NoCancellableBetOrdersFound.errorCode = "M001") :=
  ⟨rfl, rfl,
    cancelBetOrdersForMarket_empty_shortcircuit ⟨true, [], some ⟨pkB, testMarket⟩⟩
      ⟨true, [], some []⟩ (fun _ => .ok "t") ⟨pkB, testMarket⟩ rfl rfl⟩

/-- A successful submission outcome is not a failure. -/
theorem RpcOutcome.isFail_ok (t : String) : (RpcOutcome.ok t).isFail = false := rfl

/-- A failed submission outcome is a failure. -/
theorem RpcOutcome.isFail_fail (e : String) : (RpcOutcome.fail e).isFail = true := rfl

/-- Submission successes and failures partition the attempted orders: the
collected transaction ids and the failed orders account for the whole
batch. -/
theorem cancel_ok_plus_fail_length (rpc : GetAccount BetOrder → RpcOutcome) :
    ∀ l : List (GetAccount BetOrder),
      ((l.map fun bet =>
          match rpc bet with
          | .ok tnxID => (Sum.inl tnxID : String ⊕ PublicKey)
          | .fail _ => Sum.inr bet.publicKey).filterMap fun r =>
        match r with
        | .inl s => some s
        | .inr _ => none).length +
      (l.filter fun bet => (rpc bet).isFail).length = l.length := by
  intro l
  induction l with
  | nil => rfl
  | cons b rest ih =>
    cases hb : rpc b with
    | ok t =>
      simp only [List.map_cons, List.filterMap_cons, List.filter_cons, hb,
        RpcOutcome.isFail_ok, List.length_cons, Bool.false_eq_true, if_false]
      omega
    | fail e =>
      simp only [List.map_cons, List.filterMap_cons, List.filter_cons, hb,
        RpcOutcome.isFail_fail, List.length_cons, if_true]
      omega

/-- The failed-order addresses collected by the partition are exactly the
addresses of the orders whose submission failed, in batch order. -/
theorem cancel_failed_partition (rpc : GetAccount BetOrder → RpcOutcome) :
    ∀ l : List (GetAccount BetOrder),
      ((l.map fun bet =>
          match rpc bet with
          | .ok tnxID => (Sum.inl tnxID : String ⊕ PublicKey)
          | .fail _ => Sum.inr bet.publicKey).filterMap fun r =>
        match r with
        | .inl _ => none
        | .inr p => some p) =
      (l.filter fun bet => (rpc bet).isFail).map fun bet => bet.publicKey := by
  intro l
  induction l with
  | nil => rfl
  | cons b rest ih =>
    cases hb : rpc b with
    | ok t =>
      simp only [List.map_cons, List.filterMap_cons, List.filter_cons, hb,
        RpcOutcome.isFail_ok, Bool.false_eq_true, if_false]
      exact ih
    | fail e =>
      simp only [List.map_cons, List.filterMap_cons, List.filter_cons, hb,
        RpcOutcome.isFail_fail, if_true, List.map_cons]
      exact congrArg _ ih

/-- C2: over a non-empty cancellable set whose outcome indices are in
range, cancelBetOrdersForMarket attempts every order and partitions the
outcomes: the data holds exactly length-minus-failures transaction ids and
exactly the addresses of the orders whose submission failed. -/
theorem cancelBetOrdersForMarket_partitions
    (marketResponse : ClientResponse (Option (GetAccount MarketAccount)))
    (betOrdersResponse : ClientResponse (Option (List (GetAccount BetOrder))))
    (rpc : GetAccount BetOrder → RpcOutcome)
    (marketGA : GetAccount MarketAccount)
    (betOrders : List (GetAccount BetOrder))
    (hm : marketResponse.data = some marketGA)
    (hb : betOrdersResponse.data = some betOrders)
    (hne : betOrders ≠ [])
    (hidx : betOrders.all
      (fun bet => bet.account.marketOutcomeIndex < marketGA.account.marketOutcomes.length) =
      true) :
    ∃ r, cancelBetOrdersForMarket marketResponse betOrdersResponse rpc =
        .ok (r, betOrders.map fun bet => bet.publicKey) ∧
      (∃ ts, r.data.tnxIDs = some ts ∧
        ts.length =
          betOrders.length - (betOrders.filter fun bet => (rpc bet).isFail).length) ∧
      r.data.failedCancellationBetOrders =
        some ((betOrders.filter fun bet => (rpc bet).isFail).map fun bet => bet.publicKey) := by
  have hlen : ¬ betOrders.length < 1 := by
    cases betOrders with
    | nil => exact absurd rfl hne
    | cons _ _ => simp
  simp only [cancelBetOrdersForMarket, hm, hb, if_neg hlen, hidx, if_true]
  refine ⟨_, rfl, ⟨_, rfl, ?_⟩, ?_⟩
  · have h := cancel_ok_plus_fail_length rpc betOrders
    omega
  · simp only [ResponseFactory.addResponseData, ResponseFactory.body]
    rw [cancel_failed_partition rpc betOrders]

/-- Concrete batch of three cancellable orders used by witnesses. -/
def testBatch : List (GetAccount BetOrder) :=
  [{ publicKey := .raw [3], account := testBetOrder },
   { publicKey := .raw [4], account := testBetOrder },
   { publicKey := .raw [5], account := testBetOrder }]

/-- Concrete submission outcomes used by witnesses: the first order
succeeds, the other two are rejected. -/
def testRpc (bet : GetAccount BetOrder) : RpcOutcome :=
  if bet.publicKey = .raw [3] then .ok "tnx3" else .fail "rejected"

/-- C2 witness: the partition theorem applied to a concrete batch of three
orders of which two submissions fail: one transaction id, two failed-order
addresses, all three attempted. -/
theorem cancelBetOrdersForMarket_partitions_witness :
    (⟨true, [], some ⟨pkB, testMarket⟩⟩ :
      ClientResponse (Option (GetAccount MarketAccount))).data = some ⟨pkB, testMarket⟩ ∧
    (⟨true, [], some testBatch⟩ :
      ClientResponse (Option (List (GetAccount BetOrder)))).data = some testBatch ∧
    testBatch ≠ [] ∧
    testBatch.all
      (fun bet => bet.account.marketOutcomeIndex < testMarket.marketOutcomes.length) = true ∧
    ∃ r, cancelBetOrdersForMarket ⟨true, [], some ⟨pkB, testMarket⟩⟩
          ⟨true, [], some testBatch⟩ testRpc =
        .ok (r, testBatch.map fun bet => bet.publicKey) ∧
      (∃ ts, r.data.tnxIDs = some ts ∧
        ts.length = testBatch.length -
          (testBatch.filter fun bet => (testRpc bet).isFail).length) ∧
      r.data.failedCancellationBetOrders =
        some ((testBatch.filter fun bet => (testRpc bet).isFail).map fun bet =>
          bet.publicKey) :=
  ⟨rfl, rfl, by decide, by decide,
    cancelBetOrdersForMarket_partitions ⟨true, [], some ⟨pkB, testMarket⟩⟩
      ⟨true, [], some testBatch⟩ testRpc ⟨pkB, testMarket⟩ testBatch
      rfl rfl (by decide) (by decide)⟩

/-- MarketPosition account. Modelled from the spec: the MarketPosition
type declaration is not under src; per the spec it aggregates exposure
per outcome as a numeric-sum sequence parallel to the market's outcome
titles, and the code adds the rebuilt title-to-amount mapping. A mapping
value is an Option because a position read past the end of the sums list
stores undefined. -/
structure MarketPositionAccount where
  marketOutcomeSums : List Int
  outcomePositions : List (String × Option Int)
deriving DecidableEq, Repr

/-- JavaScript Map.set: overwrite the value of an existing key in place,
or append a new entry. -/
def mapSet (m : List (String × Option Int)) (k : String) (v : Option Int) :
    List (String × Option Int) :=
  if m.any (fun p => p.1 = k) then m.map (fun p => if p.1 = k then (k, v) else p)
  else m ++ [(k, v)]

/-- getMarketPosition (market_position.ts): fetch market and position (one
try block: the first failure is captured and returned); then zip the
market's outcome titles with the position's sums by index into the
outcomePositions map, reading the sums list positionally with no length
check. -/
def getMarketPosition (marketFetch : Except String MarketAccount)
    (marketPositionFetch : Except String MarketPositionAccount) :
    ClientResponse (Option MarketPositionAccount) :=
  let response := ResponseFactory.init (none : Option MarketPositionAccount)
  match marketFetch with
  | .error e => (response.addError (.ext e)).body
  | .ok market =>
    match marketPositionFetch with
    | .error e => (response.addError (.ext e)).body
    | .ok marketPosition =>
      let outcomePositions := market.marketOutcomes.enum.foldl
        (fun m it => mapSet m it.2 marketPosition.marketOutcomeSums[it.1]?) []
      (response.addResponseData
        (some { marketPosition with outcomePositions := outcomePositions })).body

/-- Setting a key not present in the map appends its entry. -/
theorem mapSet_fresh (m : List (String × Option Int)) (k : String) (v : Option Int)
    (h : m.any (fun p => p.1 = k) = false) : mapSet m k v = m ++ [(k, v)] := by
  rw [mapSet, h]
  rfl

/-- Folding Map.set over index-title pairs with pairwise distinct titles,
none of which is already present, appends one entry per pair. -/
theorem foldl_mapSet_fresh (f : Nat → Option Int) :
    ∀ (pairs : List (Nat × String)) (acc : List (String × Option Int)),
      (pairs.map Prod.snd).Nodup →
      (∀ p ∈ pairs, acc.any (fun q => q.1 = p.2) = false) →
      pairs.foldl (fun m it => mapSet m it.2 (f it.1)) acc =
        acc ++ pairs.map (fun it => (it.2, f it.1)) := by
  intro pairs
  induction pairs with
  | nil => intro acc _ _; simp
  | cons it rest ih =>
    intro acc hnd hfresh
    rw [List.map_cons, List.nodup_cons] at hnd
    rw [List.foldl_cons, mapSet_fresh acc it.2 (f it.1) (hfresh it (List.mem_cons_self _ _))]
    rw [ih (acc ++ [(it.2, f it.1)]) hnd.2 ?_]
    · simp
    · intro p hp
      have hne : p.2 ≠ it.2 := by
        intro hcontra
        exact hnd.1 (hcontra ▸ List.mem_map_of_mem Prod.snd hp)
      have hacc := hfresh p (List.mem_cons_of_mem _ hp)
      simp only [List.any_append, List.any_cons, List.any_nil, Bool.or_false, hacc,
        Bool.false_or, decide_eq_false_iff_not]
      exact fun hcontra => hne hcontra.symm

/-- Concrete market position with one sum, used with the two-outcome test
market to exercise the length-mismatch path. -/
def testPosition : MarketPositionAccount :=
  { marketOutcomeSums := [10], outcomePositions := [] }

/-- C4: as stated the claim fails on the code: with two outcome titles and
one positional sum the operation succeeds, silently padding the missing
sum with undefined, instead of failing with an integrity error. -/
theorem getMarketPosition_mismatch_counterexample :
    getMarketPosition (.ok testMarket) (.ok testPosition) =
      ⟨true, [],
       some ({ marketOutcomeSums := [10],
               outcomePositions := [("A", some 10), ("B", none)] } :
         MarketPositionAccount)⟩ := by
  decide

/-- C4 (amended): with distinct outcome titles, getMarketPosition succeeds
and maps the i-th title to the i-th positional sum; when the sums list is
shorter the missing entries are silently padded with undefined, and when
it is longer the extra sums are silently dropped — no length check or
integrity error exists on either side. -/
theorem getMarketPosition_zip_amended (market : MarketAccount)
    (marketPosition : MarketPositionAccount)
    (hnd : market.marketOutcomes.Nodup) :
    ∃ mp, getMarketPosition (.ok market) (.ok marketPosition) = ⟨true, [], some mp⟩ ∧
      mp.outcomePositions = market.marketOutcomes.enum.map
        (fun it => (it.2, marketPosition.marketOutcomeSums[it.1]?)) ∧
      mp.marketOutcomeSums = marketPosition.marketOutcomeSums := by
  refine
    ⟨{ marketPosition with
       outcomePositions := market.marketOutcomes.enum.foldl
         (fun m it => mapSet m it.2 marketPosition.marketOutcomeSums[it.1]?) [] },
     rfl, ?_, rfl⟩
  show market.marketOutcomes.enum.foldl
      (fun m it => mapSet m it.2 marketPosition.marketOutcomeSums[it.1]?) [] =
    market.marketOutcomes.enum.map
      (fun it => (it.2, marketPosition.marketOutcomeSums[it.1]?))
  exact foldl_mapSet_fresh (fun i => marketPosition.marketOutcomeSums[i]?)
    market.marketOutcomes.enum []
    (by rw [List.enum_map_snd]; exact hnd)
    (fun p _ => rfl)

/-- C4 witness: the amended theorem applied to the two-outcome test market
and a matching-length position. -/
theorem getMarketPosition_zip_amended_witness :
    testMarket.marketOutcomes.Nodup ∧
    ∃ mp, getMarketPosition (.ok testMarket)
        (.ok { marketOutcomeSums := [10, 20], outcomePositions := [] }) =
        ⟨true, [], some mp⟩ ∧
      mp.outcomePositions = testMarket.marketOutcomes.enum.map
        (fun it => (it.2, ([10, 20] : List Int)[it.1]?)) ∧
      mp.marketOutcomeSums = [10, 20] :=
  ⟨by decide,
    getMarketPosition_zip_amended testMarket
      { marketOutcomeSums := [10, 20], outcomePositions := [] } (by decide)⟩

/-- getMarket (markets.ts): fetch one market account into an envelope. -/
def getMarket (marketPk : PublicKey) (fetchRes : Except String MarketAccount) :
    ClientResponse (Option (GetAccount MarketAccount)) :=
  let response := ResponseFactory.init (none : Option (GetAccount MarketAccount))
  match fetchRes with
  | .ok market => (response.addResponseData (some ⟨marketPk, market⟩)).body
  | .error e => (response.addError (.ext e)).body

/-- Value of getMarket on a delivered account. -/
theorem getMarket_ok (marketPk : PublicKey) (m : MarketAccount) :
    getMarket marketPk (.ok m) = ⟨true, [], some ⟨marketPk, m⟩⟩ := rfl

/-- Value of getMarket on a failed fetch. -/
theorem getMarket_error (marketPk : PublicKey) (e : String) :
    getMarket marketPk (.error e) = ⟨false, [.ext e], none⟩ := rfl

/-- getMarkets (markets.ts): map getMarket over the address list; for every
failed fetch the mapped entry is undefined (the branch returns nothing)
while the failure's errors are accumulated; the joined array, one entry
per input address, is stored as the data. -/
def getMarkets (marketPks : List PublicKey)
    (fetchOracle : PublicKey → Except String MarketAccount) :
    ClientResponse (Option (List (Option (GetAccount MarketAccount)))) :=
  let response := ResponseFactory.init
    (none : Option (List (Option (GetAccount MarketAccount))))
  let markets := marketPks.map fun marketPk =>
    let market := getMarket marketPk (fetchOracle marketPk)
    if market.success then market.data else none
  let response2 := marketPks.foldl
    (fun r marketPk =>
      let market := getMarket marketPk (fetchOracle marketPk)
      if market.success then r else r.addErrors market.errors)
    response
  (response2.addResponseData (some markets)).body

/-- Error accumulation of the getMarkets fold: one captured error per
failed fetch, appended in batch order. -/
theorem getMarkets_errors_foldl (fetchOracle : PublicKey → Except String MarketAccount) :
    ∀ (marketPks : List PublicKey)
      (r : ResponseFactory (Option (List (Option (GetAccount MarketAccount))))),
      (marketPks.foldl
        (fun r marketPk =>
          let market := getMarket marketPk (fetchOracle marketPk)
          if market.success then r else r.addErrors market.errors)
        r).errors =
      r.errors ++ (marketPks.flatMap fun marketPk =>
        match fetchOracle marketPk with
        | .ok _ => []
        | .error e => [.ext e]) := by
  intro marketPks
  induction marketPks with
  | nil => intro r; simp
  | cons marketPk rest ih =>
    intro r
    rw [List.foldl_cons, List.flatMap_cons]
    cases hpk : fetchOracle marketPk with
    | ok m =>
      simp only [hpk, getMarket_ok, if_true, List.nil_append]
      exact ih r
    | error e =>
      simp only [hpk, getMarket_error, Bool.false_eq_true, if_false]
      rw [ih (r.addErrors [.ext e])]
      simp [ResponseFactory.addErrors, List.append_assoc]

/-- Pointwise value of one joined entry of getMarkets. -/
theorem getMarkets_entry (fetchOracle : PublicKey → Except String MarketAccount)
    (marketPk : PublicKey) :
    (let market := getMarket marketPk (fetchOracle marketPk)
      if market.success then market.data else none) =
      (match fetchOracle marketPk with
      | .ok m => some ⟨marketPk, m⟩
      | .error _ => none) := by
  cases hpk : fetchOracle marketPk with
  | ok m => simp [hpk, getMarket_ok]
  | error e => simp [hpk, getMarket_error]

/-- C10: getMarkets returns one entry per input address, in order: a
failed fetch leaves an undefined placeholder at its position rather than
being removed, every failure's error is accumulated in the envelope error
list, and success holds exactly when every fetch succeeded. -/
theorem getMarkets_positional_placeholders (marketPks : List PublicKey)
    (fetchOracle : PublicKey → Except String MarketAccount) :
    ∃ ms, (getMarkets marketPks fetchOracle).data = some ms ∧
      ms.length = marketPks.length ∧
      (∀ i : Nat, ms[i]? = (marketPks[i]?).map fun marketPk =>
        match fetchOracle marketPk with
        | .ok m => some ⟨marketPk, m⟩
        | .error _ => none) ∧
      (getMarkets marketPks fetchOracle).errors =
        (marketPks.flatMap fun marketPk =>
          match fetchOracle marketPk with
          | .ok _ => []
          | .error e => [.ext e]) ∧
      ((getMarkets marketPks fetchOracle).success = true ↔
        ∀ marketPk ∈ marketPks, ∃ m, fetchOracle marketPk = .ok m) := by
  have hmap : (marketPks.map fun marketPk =>
      let market := getMarket marketPk (fetchOracle marketPk)
      if market.success then market.data else none) =
      marketPks.map fun marketPk =>
        match fetchOracle marketPk with
        | .ok m => some ⟨marketPk, m⟩
        | .error _ => none :=
    List.map_congr_left fun marketPk _ => getMarkets_entry fetchOracle marketPk
  have herr := getMarkets_errors_foldl fetchOracle marketPks
    (ResponseFactory.init (none : Option (List (Option (GetAccount MarketAccount)))))
  refine ⟨_, rfl, ?_, ?_, ?_, ?_⟩
  · exact List.length_map _ _
  · intro i
    rw [hmap]
    exact List.getElem?_map _ _ _
  · show (getMarkets marketPks fetchOracle).errors = _
    simp only [getMarkets, ResponseFactory.addResponseData, ResponseFactory.body]
    rw [herr]
    rfl
  · show ((getMarkets marketPks fetchOracle).success = true ↔ _)
    simp only [getMarkets, ResponseFactory.addResponseData, ResponseFactory.body]
    rw [herr]
    simp only [ResponseFactory.init, List.nil_append, List.isEmpty_iff,
      List.flatMap_eq_nil_iff]
    constructor
    · intro h marketPk hpk
      have := h marketPk hpk
      cases hp : fetchOracle marketPk with
      | ok m => exact ⟨m, rfl⟩
      | error e => rw [hp] at this; exact absurd this (by simp)
    · intro h marketPk hpk
      obtain ⟨m, hm⟩ := h marketPk hpk
      rw [hm]

/-- The record JSON.stringify serializes for one pending bet order: the
market outcome title at the order's outcome index (undefined when out of
range), the expected odds and the backing side. With a fixed key order the
serialization is injective on these records, so membership in the string
set coincides with value equality of the triple. -/
structure PriceTriple where
  marketOutcome : Option String
  odds : ℚ
  backing : Bool
deriving DecidableEq, Repr

/-- A market price: the triple together with the matching pool PDA and the
matching pool account attached in the later phases. -/
structure MarketPrice where
  marketOutcome : Option String
  odds : ℚ
  backing : Bool
  matchingPoolPda : Option PublicKey
  matchingPool : Option MarketMatchingPoolAccount
deriving DecidableEq, Repr

/-- The data assembled by getMarketPrices. -/
structure MarketPricesData where
  market : MarketAccount
  pendingBetOrders : List (GetAccount BetOrder)
  marketPrices : List MarketPrice
deriving DecidableEq, Repr

/-- The (outcome, odds, backing) triple of a pending bet order. -/
def tripleOf (market : MarketAccount) (betOrder : GetAccount BetOrder) : PriceTriple :=
  { marketOutcome := market.marketOutcomes[betOrder.account.marketOutcomeIndex]?,
    odds := betOrder.account.expectedOdds,
    backing := betOrder.account.backing }

/-- The triple carried by a market price. -/
def MarketPrice.triple (p : MarketPrice) : PriceTriple :=
  { marketOutcome := p.marketOutcome, odds := p.odds, backing := p.backing }

/-- JavaScript Set.add: keep insertion order, add only when absent by
value equality. -/
def addIfAbsent {α : Type} [DecidableEq α] (acc : List α) (x : α) : List α :=
  if x ∈ acc then acc else acc ++ [x]

/-- Membership after one set insertion. -/
theorem mem_addIfAbsent {α : Type} [DecidableEq α] {acc : List α} {b x : α} :
    x ∈ addIfAbsent acc b ↔ x ∈ acc ∨ x = b := by
  rw [addIfAbsent]
  split
  · rename_i h
    constructor
    · exact Or.inl
    · rintro (hx | rfl)
      · exact hx
      · exact h
  · simp

/-- Membership in the set built by folding insertions. -/
theorem mem_foldl_addIfAbsent {α : Type} [DecidableEq α] :
    ∀ (l acc : List α) (x : α), x ∈ l.foldl addIfAbsent acc ↔ x ∈ acc ∨ x ∈ l := by
  intro l
  induction l with
  | nil => intro acc x; simp
  | cons b rest ih =>
    intro acc x
    rw [List.foldl_cons, ih (addIfAbsent acc b) x, mem_addIfAbsent]
    simp only [List.mem_cons]
    tauto

/-- One set insertion preserves distinctness. -/
theorem nodup_addIfAbsent {α : Type} [DecidableEq α] (acc : List α) (b : α)
    (h : acc.Nodup) : (addIfAbsent acc b).Nodup := by
  rw [addIfAbsent]
  split
  · exact h
  · rename_i hn
    simp [List.nodup_append, h, hn]

/-- The set built by folding insertions is distinct. -/
theorem nodup_foldl_addIfAbsent {α : Type} [DecidableEq α] :
    ∀ (l acc : List α), acc.Nodup → (l.foldl addIfAbsent acc).Nodup := by
  intro l
  induction l with
  | nil => intro acc h; exact h
  | cons b rest ih => intro acc h; exact ih _ (nodup_addIfAbsent acc b h)

/-- Concurrent pda derivation over the distinct triples (getMarketPrices,
market_prices.ts): each triple receives its matching pool PDA; a triple
whose outcome title is undefined makes Buffer.from throw inside the
underivable findMarketMatchingPoolPda call, rejecting the whole join. -/
def attachPdas (programId : List Nat) (marketPk : PublicKey) :
    List PriceTriple → Option (List MarketPrice)
  | [] => some []
  | t :: rest =>
    match t.marketOutcome with
    | none => none
    | some o =>
      (attachPdas programId marketPk rest).map fun l =>
        { marketOutcome := t.marketOutcome, odds := t.odds, backing := t.backing,
          matchingPoolPda :=
            some (findMarketMatchingPoolPda programId marketPk o t.odds t.backing),
          matchingPool := none } :: l

/-- When every triple has a present outcome title, the pda attachment
succeeds and preserves the triples, in order. -/
theorem attachPdas_some (programId : List Nat) (marketPk : PublicKey) :
    ∀ (triples : List PriceTriple),
      (∀ t ∈ triples, t.marketOutcome.isSome = true) →
      ∃ l, attachPdas programId marketPk triples = some l ∧
        l.map MarketPrice.triple = triples := by
  intro triples
  induction triples with
  | nil => intro _; exact ⟨[], rfl, rfl⟩
  | cons t rest ih =>
    intro h
    obtain ⟨o, ho⟩ := Option.isSome_iff_exists.mp (h t (List.mem_cons_self _ _))
    obtain ⟨l, hl, hmap⟩ := ih (fun t2 ht2 => h t2 (List.mem_cons_of_mem _ ht2))
    refine
      ⟨{ marketOutcome := t.marketOutcome, odds := t.odds, backing := t.backing,
         matchingPoolPda :=
           some (findMarketMatchingPoolPda programId marketPk o t.odds t.backing),
         matchingPool := none } :: l, ?_, ?_⟩
    · simp only [attachPdas, ho, hl]
      rfl
    · rw [List.map_cons, hmap]
      rfl

/-- Reattaching a fetched pool onto a price leaves its triple unchanged. -/
theorem attachPool_triple (pools : List (GetAccount MarketMatchingPoolAccount))
    (p : MarketPrice) :
    (match pools.find? (fun pool : GetAccount MarketMatchingPoolAccount =>
        some pool.publicKey = p.matchingPoolPda) with
      | some pool => { p with matchingPool := some pool.account }
      | none => p).triple = p.triple := by
  cases pools.find? (fun pool : GetAccount MarketMatchingPoolAccount =>
    some pool.publicKey = p.matchingPoolPda) <;> rfl

/-- getMarketPrices (market_prices.ts): join the matched-order query, the
open-order query and the market fetch (any failure short-circuits with the
aggregated errors); pending orders are the partially matched orders
(unmatched stake above zero) followed by the open orders; the distinct
(outcome, odds, backing) triples are collected through the value-equality
set; each distinct triple receives its derived matching pool PDA (the
source compares pool addresses with object identity, which coincides with
value equality here because each price holds the very pda object that was
fetched); the pools are batch-fetched and attached by address. -/
def getMarketPrices (programId : List Nat)
    (matchedBetOrders openBetOrders : ClientResponse (Option (List (GetAccount BetOrder))))
    (market : ClientResponse (Option (GetAccount MarketAccount)))
    (poolFetchRes : Except String (List (Option MarketMatchingPoolAccount))) :
    Except JsError (ClientResponse (Option MarketPricesData)) :=
  let response := ResponseFactory.init (none : Option MarketPricesData)
  if !matchedBetOrders.success || !openBetOrders.success || !market.success then
    .ok (((response.addErrors matchedBetOrders.errors).addErrors
      openBetOrders.errors).addErrors market.errors).body
  else
    match matchedBetOrders.data with
    | none => .error (.typeError "cannot read filter of undefined")
    | some matchedAccounts =>
      match openBetOrders.data with
      | none => .error (.typeError "cannot read concat of undefined")
      | some openAccounts =>
        match market.data with
        | none => .error (.typeError "cannot read marketOutcomes of undefined")
        | some marketGA =>
          let partiallyMatchedBetOrders := matchedAccounts.filter
            (fun betOrder => 0 < betOrder.account.stakeUnmatched)
          let pendingBetOrders := partiallyMatchedBetOrders ++ openAccounts
          let marketPricesSet := pendingBetOrders.foldl
            (fun acc betOrder => addIfAbsent acc (tripleOf marketGA.account betOrder)) []
          match attachPdas programId marketGA.publicKey marketPricesSet with
          | none => .error (.typeError "Buffer.from of undefined outcome")
          | some marketPrices =>
            let marketMatchingPoolPdas := marketPrices.filterMap
              (fun price => price.matchingPoolPda)
            let poolsResponse :=
              getMarketMatchingPoolAccounts marketMatchingPoolPdas poolFetchRes
            if !poolsResponse.success then
              .ok (response.addErrors poolsResponse.errors).body
            else
              match poolsResponse.data with
              | none => .error (.typeError "cannot read find of undefined")
              | some pools =>
                let marketPrices2 := marketPrices.map fun price =>
                  match pools.find?
                      (fun pool : GetAccount MarketMatchingPoolAccount =>
                        some pool.publicKey = price.matchingPoolPda) with
                  | some pool => { price with matchingPool := some pool.account }
                  | none => price
                .ok (response.addResponseData
                  (some { market := marketGA.account,
                          pendingBetOrders := pendingBetOrders,
                          marketPrices := marketPrices2 })).body

/-- C5: with successful upstream queries delivering status-filtered order
lists and in-range outcome indices, the pending set getMarketPrices
assembles is exactly the fully open orders together with the matched
orders that still carry unmatched stake, and the market-price list holds
exactly one entry per distinct (outcome, odds, backing) triple of that
set, distinctness being value equality of the triple. -/
theorem getMarketPrices_distinct_triples
    (programId : List Nat)
    (matchedBetOrders openBetOrders : ClientResponse (Option (List (GetAccount BetOrder))))
    (market : ClientResponse (Option (GetAccount MarketAccount)))
    (poolFetch : List (Option MarketMatchingPoolAccount))
    (matchedAccounts openAccounts : List (GetAccount BetOrder))
    (marketGA : GetAccount MarketAccount)
    (hms : matchedBetOrders.success = true)
    (hos : openBetOrders.success = true)
    (hks : market.success = true)
    (hmd : matchedBetOrders.data = some matchedAccounts)
    (hod : openBetOrders.data = some openAccounts)
    (hkd : market.data = some marketGA)
    (hmatched : ∀ b ∈ matchedAccounts, b.account.betOrderStatus = BetOrderStatus.Matched)
    (hopen : ∀ b ∈ openAccounts, b.account.betOrderStatus = BetOrderStatus.Open)
    (hidx : ∀ b ∈ matchedAccounts ++ openAccounts,
      b.account.marketOutcomeIndex < marketGA.account.marketOutcomes.length) :
    ∃ r d,
      getMarketPrices programId matchedBetOrders openBetOrders market (.ok poolFetch) =
        .ok r ∧
      r.success = true ∧ r.data = some d ∧
      d.pendingBetOrders =
        matchedAccounts.filter (fun betOrder => 0 < betOrder.account.stakeUnmatched) ++
          openAccounts ∧
      (∀ b, b ∈ d.pendingBetOrders ↔
        ((b ∈ matchedAccounts ∧ b.account.betOrderStatus = BetOrderStatus.Matched ∧
            0 < b.account.stakeUnmatched) ∨
          (b ∈ openAccounts ∧ b.account.betOrderStatus = BetOrderStatus.Open))) ∧
      (d.marketPrices.map MarketPrice.triple).Nodup ∧
      (d.marketPrices.map MarketPrice.triple).Perm
        ((d.pendingBetOrders.map (tripleOf marketGA.account)).dedup) := by
  rcases matchedBetOrders with ⟨msucc, merrs, mdata⟩
  rcases openBetOrders with ⟨osucc, oerrs, odata⟩
  rcases market with ⟨ksucc, kerrs, kdata⟩
  obtain rfl : msucc = true := hms
  obtain rfl : osucc = true := hos
  obtain rfl : ksucc = true := hks
  obtain rfl : mdata = some matchedAccounts := hmd
  obtain rfl : odata = some openAccounts := hod
  obtain rfl : kdata = some marketGA := hkd
  have hsome : ∀ t ∈ (matchedAccounts.filter
        (fun betOrder => 0 < betOrder.account.stakeUnmatched) ++ openAccounts).foldl
      (fun acc betOrder => addIfAbsent acc (tripleOf marketGA.account betOrder)) [],
      t.marketOutcome.isSome = true := by
    intro t ht
    rw [← List.foldl_map, mem_foldl_addIfAbsent] at ht
    rcases ht with ht | ht
    · exact absurd ht (List.not_mem_nil t)
    · obtain ⟨b, hb, rfl⟩ := List.mem_map.mp ht
      have hbm : b ∈ matchedAccounts ++ openAccounts := by
        rcases List.mem_append.mp hb with hb2 | hb2
        · exact List.mem_append.mpr (Or.inl (List.mem_of_mem_filter hb2))
        · exact List.mem_append.mpr (Or.inr hb2)
      rw [tripleOf, List.getElem?_eq_getElem (hidx b hbm)]
      rfl
  obtain ⟨prices1, hat, htr⟩ := attachPdas_some programId marketGA.publicKey _ hsome
  have htr2 : (prices1.map fun price =>
      match (assembleFiltered (prices1.filterMap fun price => price.matchingPoolPda)
          poolFetch).find? (fun pool : GetAccount MarketMatchingPoolAccount =>
            some pool.publicKey = price.matchingPoolPda) with
      | some pool => { price with matchingPool := some pool.account }
      | none => price).map MarketPrice.triple = prices1.map MarketPrice.triple := by
    rw [List.map_map]
    refine List.map_congr_left fun p _ => ?_
    exact attachPool_triple
      (assembleFiltered (prices1.filterMap fun price => price.matchingPoolPda) poolFetch) p
  have hnodupset : ((matchedAccounts.filter
        (fun betOrder => 0 < betOrder.account.stakeUnmatched) ++ openAccounts).foldl
      (fun acc betOrder => addIfAbsent acc (tripleOf marketGA.account betOrder)) []).Nodup := by
    rw [← List.foldl_map]
    exact nodup_foldl_addIfAbsent _ [] List.nodup_nil
  refine ⟨⟨true, [], some
      { market := marketGA.account,
        pendingBetOrders := matchedAccounts.filter
          (fun betOrder => 0 < betOrder.account.stakeUnmatched) ++ openAccounts,
        marketPrices := prices1.map fun price =>
          match (assembleFiltered (prices1.filterMap fun price => price.matchingPoolPda)
              poolFetch).find? (fun pool : GetAccount MarketMatchingPoolAccount =>
                some pool.publicKey = price.matchingPoolPda) with
          | some pool => { price with matchingPool := some pool.account }
          | none => price }⟩, _, ?_, rfl, rfl, rfl, ?_, ?_, ?_⟩
  · simp only [getMarketPrices]
    rw [hat]
    rfl
  · intro b
    constructor
    · intro hb
      rcases List.mem_append.mp hb with hb2 | hb2
      · obtain ⟨hbm, hbs⟩ := List.mem_filter.mp hb2
        exact Or.inl ⟨hbm, hmatched b hbm, by exact_mod_cast of_decide_eq_true hbs⟩
      · exact Or.inr ⟨hb2, hopen b hb2⟩
    · rintro (⟨hbm, _, hbs⟩ | ⟨hbo, _⟩)
      · exact List.mem_append.mpr
          (Or.inl (List.mem_filter.mpr ⟨hbm, decide_eq_true hbs⟩))
      · exact List.mem_append.mpr (Or.inr hbo)
  · rw [htr2, htr]
    exact hnodupset
  · rw [htr2, htr]
    refine (List.perm_ext_iff_of_nodup hnodupset (List.nodup_dedup _)).mpr ?_
    intro t
    rw [List.mem_dedup, ← List.foldl_map, mem_foldl_addIfAbsent]
    simp

/-- Concrete partially matched order (unmatched stake above zero) carrying
the same (outcome, odds, backing) triple as the open test order. -/
def testMatchedOrder : BetOrder :=
  { testBetOrder with betOrderStatus := .Matched, stakeUnmatched := 5 }

/-- Concrete fully open order with zero unmatched stake, same triple. -/
def testOpenOrder : BetOrder :=
  { testBetOrder with betOrderStatus := .Open, stakeUnmatched := 0 }

/-- C5 witness: the theorem applied to one partially matched and one open
order with the same (outcome, odds, backing) triple: both are pending and
the distinct-triple market-price list has exactly one entry, not two. -/
theorem getMarketPrices_distinct_triples_witness :
    (∀ b ∈ [(⟨pkA, testMatchedOrder⟩ : GetAccount BetOrder)],
      b.account.betOrderStatus = BetOrderStatus.Matched) ∧
    (∀ b ∈ [(⟨pkB, testOpenOrder⟩ : GetAccount BetOrder)],
      b.account.betOrderStatus = BetOrderStatus.Open) ∧
    ∃ r d,
      getMarketPrices [7] ⟨true, [], some [⟨pkA, testMatchedOrder⟩]⟩
          ⟨true, [], some [⟨pkB, testOpenOrder⟩]⟩
          ⟨true, [], some ⟨pkB, testMarket⟩⟩ (.ok []) = .ok r ∧
      r.success = true ∧ r.data = some d ∧
      d.marketPrices.length = 1 := by
  refine ⟨by decide, by decide, ?_⟩
  obtain ⟨r, d, hok, hs, hd, hpend, hiff, hnd, hperm⟩ :=
    getMarketPrices_distinct_triples [7] ⟨true, [], some [⟨pkA, testMatchedOrder⟩]⟩
      ⟨true, [], some [⟨pkB, testOpenOrder⟩]⟩ ⟨true, [], some ⟨pkB, testMarket⟩⟩
      [] [⟨pkA, testMatchedOrder⟩] [⟨pkB, testOpenOrder⟩] ⟨pkB, testMarket⟩
      rfl rfl rfl rfl rfl rfl (by decide) (by decide) (by decide)
  refine ⟨r, d, hok, hs, hd, ?_⟩
  have hlen := hperm.length_eq
  rw [List.length_map] at hlen
  rw [hlen, hpend]
  decide
